import Mathlib

namespace Polaris

def sepReplace (c : Char) : Char := if c = '\\' || c = '/' then '/' else c

def splitSep : List Char → List (List Char)
  | [] => [[]]
  | c :: rest =>
    let r := splitSep rest
    if c = '/' then [] :: r
    else (c :: r.headI) :: r.tail

def joinSep : List (List Char) → List Char
  | [] => []
  | [s] => s
  | s :: rest => s ++ '/' :: joinSep rest

def pathSegs (cs : List Char) : List (List Char) :=
  (splitSep cs).filter (fun s => s ≠ [])

def cleanChars (cs : List Char) : List Char :=
  let replaced := cs.map sepReplace
  let segs := pathSegs replaced
  let core := segs.filter (fun s => s ≠ ['.'])
  if replaced.head? = some '/' then '/' :: joinSep core
  else if segs.head? = some ['.'] then joinSep (['.'] :: core)
  else joinSep core

def clean_path_string (s : String) : String := String.mk (cleanChars s.data)

/-- The single-row global settings record (config.rs lines 19-25): `id`,
`auth_secret`, `index_sleep_duration_seconds`, `index_album_art_pattern`. -/
structure MiscSettings where
  id : Int
  auth_secret : String
  index_sleep_duration_seconds : Int
  index_album_art_pattern : String
deriving DecidableEq

/-- Modelled from the spec: the `MountPoint` struct lives in vfs.rs, which is
outside the excerpt; the spec describes it as a record with a `source`
path string and a logical `name`. -/
structure MountPoint where
  source : String
  name : String
deriving DecidableEq

/-- A user entry of the configuration document (config.rs lines 27-31). -/
structure ConfigUser where
  name : String
  password : String
deriving DecidableEq

/-- Modelled from the spec: the `DDNSConfig` struct lives in ddns.rs, which is
outside the excerpt; the spec describes it as a record with `host`,
`username` and `password` strings. -/
structure DDNSConfig where
  host : String
  username : String
  password : String
deriving DecidableEq

/-- The configuration document (config.rs lines 33-40): five independently
optional top-level fields. -/
structure Config where
  album_art_pattern : Option String
  reindex_every_n_seconds : Option Int
  mount_dirs : Option (List MountPoint)
  users : Option (List ConfigUser)
  ydns : Option DDNSConfig
deriving DecidableEq

/-- Modelled from the spec: `User::new` lives in user.rs, which is outside the
excerpt; per the spec, the credential-issuance collaborator receives a
plaintext name and password and returns a storable user record whose name is
the given name and whose stored password hash is computed externally (the
hash computation is taken as an abstract function). -/
structure User where
  name : String
  password_hash : String
deriving DecidableEq

def User.new (hash : String → String) (name : String) (password : String) : User :=
  { name := name, password_hash := hash password }

/-- The store primitives this module issues against the connection.  Each
constructor names one SQL statement appearing in config.rs. -/
inductive Op
  | deleteMountPoints
  | insertMountPoints
  | deleteUsers
  | insertUser
  | updateSleepDuration
  | updateArtPattern
  | updateDdns
  | selectMiscSettings
  | selectMountPoints
  | selectUserNames
  | selectDdns
deriving DecidableEq

/-- The error kinds of the module: a store failure from an underlying
statement (surfaced verbatim), the bail on a mount path that cannot be turned
back into a string, and a structural parse failure. -/
inductive Err
  | storeError (op : Op)
  | invalidPath
  | parseError
deriving DecidableEq

/-- Observable events of one call: acquisition and release of the shared
connection lock, and execution of a store statement. -/
inductive Event
  | lockAcquire
  | lockRelease
  | opExec (op : Op)
deriving DecidableEq

/-- The four persisted collections behind the adapter: the single misc
settings row, the mount point table, the user table and the single DDNS row. -/
structure Store where
  misc : MiscSettings
  mount_points : List MountPoint
  users : List User
  ddns : DDNSConfig
deriving DecidableEq

/-- The externally supplied connection: the persisted state, a fault model
telling which underlying statements fail with a store error (the persistence
engine is an external collaborator, so its failures are an input of the
model), and the external password-hash function used by `User::new`. -/
structure Conn where
  store : Store
  failures : Op → Bool
  hash : String → String

/-- Result of one mutating call: the connection afterwards, the error if the
call aborted, and the trace of lock and statement events it produced. -/
structure MRes where
  conn : Conn
  err : Option Err
  events : List Event

/-- Execute one store statement: if the fault model marks the statement as
failing, the state is untouched and a `StoreError` for that statement is
returned; otherwise the statement applies its state transformation. -/
def Conn.exec (c : Conn) (op : Op) (f : Store → Store) : MRes :=
  if c.failures op then
    { conn := c, err := some (Err.storeError op), events := [Event.opExec op] }
  else
    { conn := { c with store := f c.store }, err := none, events := [Event.opExec op] }

/-- Execute one query: if the fault model marks it as failing, a `StoreError`
is returned, otherwise the selected data. -/
def Conn.query {α : Type} (c : Conn) (op : Op) (f : Store → α) : Except Err α :=
  if c.failures op then Except.error (Err.storeError op) else Except.ok (f c.store)

/-- Sequencing of statements, mirroring the `?` early returns: once a step
aborts, later steps do not run; events accumulate. -/
def MRes.andThen (r : MRes) (g : Conn → MRes) : MRes :=
  match r.err with
  | some _ => r
  | none =>
    let r2 := g r.conn
    { conn := r2.conn, err := r2.err, events := r.events ++ r2.events }

/-- A step that issues no statement (a skipped `if let` arm). -/
def skip (c : Conn) : MRes := { conn := c, err := none, events := [] }

/-- Scoped lock acquisition: the source takes the connection mutex once at
entry and the guard is dropped on every exit path (early `?` return or normal
return), so the trace is one acquisition, the body, one release. -/
def withLock (f : Conn → MRes) (c : Conn) : MRes :=
  let r := f c
  { conn := r.conn, err := r.err,
    events := Event.lockAcquire :: (r.events ++ [Event.lockRelease]) }

/-- Operation `read` (config.rs lines 72-121): under one lock, query the misc settings
row, the mount point table, the user names (only the name column is read) and
the DDNS row, in that order; each `?` aborts the whole read, and on success a
document with every field populated is assembled, user passwords left empty. -/
def read (c : Conn) : Except Err Config := do
  let misc_row ← c.query Op.selectMiscSettings
    (fun s => (s.misc.index_album_art_pattern, s.misc.index_sleep_duration_seconds))
  let mount_dirs ← c.query Op.selectMountPoints (fun s => s.mount_points)
  let usernames ← c.query Op.selectUserNames (fun s => s.users.map User.name)
  let ydns ← c.query Op.selectDdns (fun s => s.ddns)
  Except.ok
    { album_art_pattern := some misc_row.1
      reindex_every_n_seconds := some misc_row.2
      mount_dirs := some mount_dirs
      users := some (usernames.map (fun s => { name := s, password := "" }))
      ydns := some ydns }

/-- Body of `reset` (config.rs lines 123-134): delete all mount points, then
delete all users. -/
def resetBody (c : Conn) : MRes :=
  (c.exec Op.deleteMountPoints (fun s => { s with mount_points := [] })).andThen
    (fun c => c.exec Op.deleteUsers (fun s => { s with users := [] }))

/-- Operation `reset`: the deletes run under one lock acquisition. -/
def reset (c : Conn) : MRes := withLock resetBody c

/-- The user insertion loop of `ammend` (config.rs lines 159-164): for each
config user, build a storable record via `User::new` and insert it. -/
def insertUsers : Conn → List ConfigUser → MRes
  | c, [] => skip c
  | c, config_user :: rest =>
    (c.exec Op.insertUser
        (fun s => { s with
          users := s.users ++ [User.new c.hash config_user.name config_user.password] })).andThen
      (fun c => insertUsers c rest)

/-- Step 1 of `ammend` (config.rs lines 150-155): if mount dirs are present,
delete all mount point rows then insert the given rows. -/
def ammendMounts (c : Conn) (new_config : Config) : MRes :=
  match new_config.mount_dirs with
  | none => skip c
  | some mount_dirs =>
    (c.exec Op.deleteMountPoints (fun s => { s with mount_points := [] })).andThen
      (fun c => c.exec Op.insertMountPoints
        (fun s => { s with mount_points := s.mount_points ++ mount_dirs }))

/-- Step 2 of `ammend` (config.rs lines 157-165): if users are present, delete
all user rows then insert each given user. -/
def ammendUsers (c : Conn) (new_config : Config) : MRes :=
  match new_config.users with
  | none => skip c
  | some config_users =>
    (c.exec Op.deleteUsers (fun s => { s with users := [] })).andThen
      (fun c => insertUsers c config_users)

/-- Step 3a of `ammend` (config.rs lines 167-171): targeted update of the
sleep duration column when present. -/
def ammendSleep (c : Conn) (new_config : Config) : MRes :=
  match new_config.reindex_every_n_seconds with
  | none => skip c
  | some sleep_duration =>
    c.exec Op.updateSleepDuration
      (fun s => { s with misc := { s.misc with index_sleep_duration_seconds := sleep_duration } })

/-- Step 3b of `ammend` (config.rs lines 173-177): targeted update of the
album art pattern column when present. -/
def ammendPattern (c : Conn) (new_config : Config) : MRes :=
  match new_config.album_art_pattern with
  | none => skip c
  | some album_art_pattern =>
    c.exec Op.updateArtPattern
      (fun s => { s with misc := { s.misc with index_album_art_pattern := album_art_pattern } })

/-- Step 4 of `ammend` (config.rs lines 179-186): targeted update of the
three DDNS columns when present. -/
def ammendDdns (c : Conn) (new_config : Config) : MRes :=
  match new_config.ydns with
  | none => skip c
  | some ydns => c.exec Op.updateDdns (fun s => { s with ddns := ydns })

/-- Body of `ammend` (config.rs lines 143-189): mount points, then users,
then the two global settings columns, then DDNS; each failing statement
aborts the rest via `?`. -/
def ammendBody (new_config : Config) (c : Conn) : MRes :=
  (ammendMounts c new_config).andThen (fun c =>
    (ammendUsers c new_config).andThen (fun c =>
      (ammendSleep c new_config).andThen (fun c =>
        (ammendPattern c new_config).andThen (fun c =>
          ammendDdns c new_config))))

/-- Operation `ammend`: the whole body runs under one lock acquisition (the guard taken
at config.rs line 147 lives until the function returns). -/
def ammend (c : Conn) (new_config : Config) : MRes := withLock (ammendBody new_config) c

/-- Operation `overwrite` (config.rs lines 136-141): `reset(db)?` then `ammend`. -/
def overwrite (c : Conn) (new_config : Config) : MRes :=
  (reset c).andThen (fun c => ammend c new_config)

/-- Conversion of the rebuilt path back to a string (`to_str` at config.rs
line 46): the path was assembled from segments of a unicode string, so in
this model (where strings are their character lists) the conversion always
succeeds. -/
def pathBuf_to_str (p : List Char) : Option String := some (String.mk p)

/-- The per-mount-point cleaning loop of `Config::clean_paths` (config.rs
lines 44-51): each source is normalized and converted back to a string; a
failing conversion bails out with the bad-mount-directory-path error. -/
def cleanMountDirs : List MountPoint → Except Err (List MountPoint)
  | [] => Except.ok []
  | mount_dir :: rest =>
    match pathBuf_to_str (cleanChars mount_dir.source.data) with
    | some p => (cleanMountDirs rest).map (fun r => { mount_dir with source := p } :: r)
    | none => Except.error Err.invalidPath

/-- Method `Config::clean_paths` (config.rs lines 43-54): normalize every mount
source in place; absent mount dirs leave the document untouched. -/
def Config.clean_paths (c : Config) : Except Err Config :=
  match c.mount_dirs with
  | none => Except.ok c
  | some dirs => (cleanMountDirs dirs).map (fun d => { c with mount_dirs := some d })

/-- Function `parse_json` (config.rs lines 56-60): the structural deserializer is the
external serde collaborator, taken as a parameter; after it succeeds the
paths are cleaned before the document is returned. -/
def parse_json (structural : String → Except Err Config) (content : String) :
    Except Err Config := do
  let config ← structural content
  let config ← config.clean_paths
  Except.ok config

/-- Function `parse_toml_file` (config.rs lines 62-70): file reading and the external
toml deserializer are abstracted into the structural parameter applied to the
file content; after it succeeds the paths are cleaned. -/
def parse_toml_file (structural : String → Except Err Config) (content : String) :
    Except Err Config := do
  let config ← structural content
  let config ← config.clean_paths
  Except.ok config

/-- A concrete persisted state used to instantiate theorems. -/
def store0 : Store :=
  { misc := { id := 1, auth_secret := "s3cr3t",
              index_sleep_duration_seconds := 1800,
              index_album_art_pattern := "Folder.png" }
    mount_points := [{ source := "/old/music", name := "oldroot" }]
    users := [{ name := "olduser", password_hash := "oldhash" }]
    ddns := { host := "old.ydns.eu", username := "olduser", password := "oldpass" } }

/-- A connection on which every statement succeeds. -/
def connOk : Conn := { store := store0, failures := fun _ => false, hash := fun s => s }

/-- A connection on which exactly one given statement kind fails. -/
def connFail (bad : Op) : Conn :=
  { store := store0, failures := fun op => decide (op = bad), hash := fun s => s }

/-- A concrete document with all five fields present. -/
def cfgAll : Config :=
  { album_art_pattern := some ("file.png")
    reindex_every_n_seconds := some 123
    mount_dirs := some [{ source := "/usr/some/path", name := "root" }]
    users := some [{ name := "Teddy", password := "pw" }]
    ydns := some { host := "x.ydns.eu", username := "u", password := "p" } }

/-- A concrete document with no field present. -/
def cfgNone : Config :=
  { album_art_pattern := none, reindex_every_n_seconds := none,
    mount_dirs := none, users := none, ydns := none }

/-- A concrete document whose mount dir list is present but empty. -/
def cfgEmptyMounts : Config :=
  { cfgNone with mount_dirs := some [] }

/-- A concrete structural deserializer that always yields `cfgAll`. -/
def structuralOk : String → Except Err Config := fun _ => Except.ok cfgAll

/-- The document that reading `store0` yields. -/
def cfgRead : Config :=
  { album_art_pattern := some ("Folder.png")
    reindex_every_n_seconds := some 1800
    mount_dirs := some [{ source := "/old/music", name := "oldroot" }]
    users := some [{ name := "olduser", password := "" }]
    ydns := some { host := "old.ydns.eu", username := "olduser", password := "oldpass" } }

@[simp] theorem exec_ok {c : Conn} {op : Op} {f : Store → Store}
    (h : c.failures op = false) :
    c.exec op f = { conn := { c with store := f c.store }, err := none,
                    events := [Event.opExec op] } := by
  simp [Conn.exec, h]

@[simp] theorem exec_fail {c : Conn} {op : Op} {f : Store → Store}
    (h : c.failures op = true) :
    c.exec op f = { conn := c, err := some (Err.storeError op),
                    events := [Event.opExec op] } := by
  simp [Conn.exec, h]

@[simp] theorem andThen_mk_none (c : Conn) (ev : List Event) (g : Conn → MRes) :
    MRes.andThen { conn := c, err := none, events := ev } g =
      { conn := (g c).conn, err := (g c).err, events := ev ++ (g c).events } := rfl

@[simp] theorem andThen_mk_some (c : Conn) (e : Err) (ev : List Event) (g : Conn → MRes) :
    MRes.andThen { conn := c, err := some e, events := ev } g =
      { conn := c, err := some e, events := ev } := rfl

@[simp] theorem withLock_conn (f : Conn → MRes) (c : Conn) :
    (withLock f c).conn = (f c).conn := rfl

@[simp] theorem withLock_err (f : Conn → MRes) (c : Conn) :
    (withLock f c).err = (f c).err := rfl

@[simp] theorem withLock_events (f : Conn → MRes) (c : Conn) :
    (withLock f c).events = Event.lockAcquire :: ((f c).events ++ [Event.lockRelease]) := rfl

theorem andThen_pres (P : Store → Prop) {r : MRes} {g : Conn → MRes}
    (h : P r.conn.store) (hg : ∀ c, P c.store → P ((g c).conn.store)) :
    P ((r.andThen g).conn.store) := by
  unfold MRes.andThen
  cases hr : r.err with
  | some e => simpa using h
  | none => simpa using hg _ h

theorem exec_pres (P : Store → Prop) {c : Conn} {op : Op} {f : Store → Store}
    (hf : ∀ s, P s → P (f s)) (h : P c.store) : P ((c.exec op f).conn.store) := by
  unfold Conn.exec
  split
  · simpa using h
  · simpa using hf _ h

theorem insertUsers_pres (P : Store → Prop)
    (hins : ∀ s u, P s → P { s with users := s.users ++ [u] }) :
    ∀ (us : List ConfigUser) (c : Conn), P c.store → P ((insertUsers c us).conn.store) := by
  intro us
  induction us with
  | nil => intro c h; simpa [insertUsers, skip] using h
  | cons u rest ih =>
    intro c h
    unfold insertUsers
    exact andThen_pres P (exec_pres P (fun s hs => hins s _ hs) h) (fun c hc => ih c hc)

theorem ammendMounts_pres (P : Store → Prop)
    (hdel : ∀ s, P s → P { s with mount_points := [] })
    (hins : ∀ s l, P s → P { s with mount_points := s.mount_points ++ l })
    (cfg : Config) (c : Conn) (h : P c.store) : P ((ammendMounts c cfg).conn.store) := by
  unfold ammendMounts
  cases cfg.mount_dirs with
  | none => simpa [skip] using h
  | some l =>
    exact andThen_pres P (exec_pres P hdel h)
      (fun c hc => exec_pres P (fun s hs => hins s l hs) hc)

theorem ammendUsers_pres (P : Store → Prop)
    (hdel : ∀ s, P s → P { s with users := [] })
    (hins : ∀ s u, P s → P { s with users := s.users ++ [u] })
    (cfg : Config) (c : Conn) (h : P c.store) : P ((ammendUsers c cfg).conn.store) := by
  unfold ammendUsers
  cases cfg.users with
  | none => simpa [skip] using h
  | some us =>
    exact andThen_pres P (exec_pres P hdel h)
      (fun c hc => insertUsers_pres P hins us c hc)

theorem ammendSleep_pres (P : Store → Prop)
    (hupd : ∀ s n, P s → P { s with misc := { s.misc with index_sleep_duration_seconds := n } })
    (cfg : Config) (c : Conn) (h : P c.store) : P ((ammendSleep c cfg).conn.store) := by
  unfold ammendSleep
  cases cfg.reindex_every_n_seconds with
  | none => simpa [skip] using h
  | some n => exact exec_pres P (fun s hs => hupd s n hs) h

theorem ammendPattern_pres (P : Store → Prop)
    (hupd : ∀ s a, P s → P { s with misc := { s.misc with index_album_art_pattern := a } })
    (cfg : Config) (c : Conn) (h : P c.store) : P ((ammendPattern c cfg).conn.store) := by
  unfold ammendPattern
  cases cfg.album_art_pattern with
  | none => simpa [skip] using h
  | some a => exact exec_pres P (fun s hs => hupd s a hs) h

theorem ammendDdns_pres (P : Store → Prop)
    (hupd : ∀ s y, P s → P { s with ddns := y })
    (cfg : Config) (c : Conn) (h : P c.store) : P ((ammendDdns c cfg).conn.store) := by
  unfold ammendDdns
  cases cfg.ydns with
  | none => simpa [skip] using h
  | some y => exact exec_pres P (fun s hs => hupd s y hs) h

theorem ammendBody_pres (P : Store → Prop) (cfg : Config)
    (h1 : ∀ c : Conn, P c.store → P ((ammendMounts c cfg).conn.store))
    (h2 : ∀ c : Conn, P c.store → P ((ammendUsers c cfg).conn.store))
    (h3 : ∀ c : Conn, P c.store → P ((ammendSleep c cfg).conn.store))
    (h4 : ∀ c : Conn, P c.store → P ((ammendPattern c cfg).conn.store))
    (h5 : ∀ c : Conn, P c.store → P ((ammendDdns c cfg).conn.store))
    (c : Conn) (h : P c.store) : P ((ammendBody cfg c).conn.store) := by
  unfold ammendBody
  exact andThen_pres P (h1 c h) (fun c hc =>
    andThen_pres P (h2 c hc) (fun c hc =>
      andThen_pres P (h3 c hc) (fun c hc =>
        andThen_pres P (h4 c hc) (fun c hc => h5 c hc))))

theorem ammend_auth (v : String) (c : Conn) (cfg : Config)
    (h : c.store.misc.auth_secret = v) :
    (ammend c cfg).conn.store.misc.auth_secret = v :=
  ammendBody_pres (fun s => s.misc.auth_secret = v) cfg
    (fun c2 hc =>
      ammendMounts_pres (fun s => s.misc.auth_secret = v)
        (fun _ hs => hs) (fun _ _ hs => hs) cfg c2 hc)
    (fun c2 hc =>
      ammendUsers_pres (fun s => s.misc.auth_secret = v)
        (fun _ hs => hs) (fun _ _ hs => hs) cfg c2 hc)
    (fun c2 hc =>
      ammendSleep_pres (fun s => s.misc.auth_secret = v) (fun _ _ hs => hs) cfg c2 hc)
    (fun c2 hc =>
      ammendPattern_pres (fun s => s.misc.auth_secret = v) (fun _ _ hs => hs) cfg c2 hc)
    (fun c2 hc =>
      ammendDdns_pres (fun s => s.misc.auth_secret = v) (fun _ _ hs => hs) cfg c2 hc)
    c h

theorem reset_auth (v : String) (c : Conn) (h : c.store.misc.auth_secret = v) :
    (reset c).conn.store.misc.auth_secret = v := by
  show (resetBody c).conn.store.misc.auth_secret = v
  unfold resetBody
  refine andThen_pres (fun s => s.misc.auth_secret = v) ?_ ?_
  · exact exec_pres (fun s => s.misc.auth_secret = v) (fun _ hs => hs) h
  · intro c2 hc
    exact exec_pres (fun s => s.misc.auth_secret = v) (fun _ hs => hs) hc

theorem ammend_mounts_none (cfg : Config) (hm : cfg.mount_dirs = none)
    (v : List MountPoint) (c : Conn) (h : c.store.mount_points = v) :
    (ammend c cfg).conn.store.mount_points = v :=
  ammendBody_pres (fun s => s.mount_points = v) cfg
    (fun c2 hc => by unfold ammendMounts; rw [hm]; exact hc)
    (fun c2 hc =>
      ammendUsers_pres (fun s => s.mount_points = v)
        (fun _ hs => hs) (fun _ _ hs => hs) cfg c2 hc)
    (fun c2 hc =>
      ammendSleep_pres (fun s => s.mount_points = v) (fun _ _ hs => hs) cfg c2 hc)
    (fun c2 hc =>
      ammendPattern_pres (fun s => s.mount_points = v) (fun _ _ hs => hs) cfg c2 hc)
    (fun c2 hc =>
      ammendDdns_pres (fun s => s.mount_points = v) (fun _ _ hs => hs) cfg c2 hc)
    c h

theorem ammend_users_none (cfg : Config) (hu : cfg.users = none)
    (v : List User) (c : Conn) (h : c.store.users = v) :
    (ammend c cfg).conn.store.users = v :=
  ammendBody_pres (fun s => s.users = v) cfg
    (fun c2 hc =>
      ammendMounts_pres (fun s => s.users = v)
        (fun _ hs => hs) (fun _ _ hs => hs) cfg c2 hc)
    (fun c2 hc => by unfold ammendUsers; rw [hu]; exact hc)
    (fun c2 hc =>
      ammendSleep_pres (fun s => s.users = v) (fun _ _ hs => hs) cfg c2 hc)
    (fun c2 hc =>
      ammendPattern_pres (fun s => s.users = v) (fun _ _ hs => hs) cfg c2 hc)
    (fun c2 hc =>
      ammendDdns_pres (fun s => s.users = v) (fun _ _ hs => hs) cfg c2 hc)
    c h

theorem cleanMountDirs_run (dirs : List MountPoint) :
    cleanMountDirs dirs =
      Except.ok (dirs.map (fun m => { m with source := clean_path_string m.source })) := by
  induction dirs with
  | nil => rfl
  | cons m rest ih =>
    simp [cleanMountDirs, pathBuf_to_str, ih, clean_path_string, Except.map]

/-- C10: no operation of this module modifies the `auth_secret` column: the
global-settings writes of `ammend` (and hence of `overwrite`) touch only the
sleep-duration and album-art-pattern columns, leaving `auth_secret` unchanged
for every connection state, every document, and every failure pattern. -/
theorem c10_auth_secret_never_modified (c : Conn) (cfg : Config) :
    (ammend c cfg).conn.store.misc.auth_secret = c.store.misc.auth_secret ∧
    (overwrite c cfg).conn.store.misc.auth_secret = c.store.misc.auth_secret := by
  refine ⟨ammend_auth _ c cfg rfl, ?_⟩
  exact andThen_pres (fun s => s.misc.auth_secret = c.store.misc.auth_secret)
    (reset_auth _ c rfl) (fun c2 hc => ammend_auth _ c2 cfg hc)

/-- C2: `ammend` leaves the mount-point table unchanged when the document
omits `mount_dirs`; when the document specifies `some list` (including the
empty list) and the two mount statements succeed, the table afterwards holds
exactly the rows of the list (delete-all then insert-all). -/
theorem c2_ammend_mount_semantics (c : Conn) (cfg : Config) :
    (cfg.mount_dirs = none →
      (ammend c cfg).conn.store.mount_points = c.store.mount_points) ∧
    (∀ l, cfg.mount_dirs = some l →
      c.failures Op.deleteMountPoints = false →
      c.failures Op.insertMountPoints = false →
      (ammend c cfg).conn.store.mount_points = l) := by
  constructor
  · intro hm
    exact ammend_mounts_none cfg hm _ c rfl
  · intro l hm h1 h2
    have hm1 : (ammendMounts c cfg).conn.store.mount_points = l := by
      simp [ammendMounts, hm, Conn.exec, h1, h2, MRes.andThen]
    show (ammendBody cfg c).conn.store.mount_points = l
    unfold ammendBody
    exact andThen_pres (fun s => s.mount_points = l) hm1
      (fun c2 hc => andThen_pres (fun s => s.mount_points = l)
        (ammendUsers_pres (fun s => s.mount_points = l)
          (fun _ hs => hs) (fun _ _ hs => hs) cfg c2 hc)
        (fun c3 hc3 => andThen_pres (fun s => s.mount_points = l)
          (ammendSleep_pres (fun s => s.mount_points = l) (fun _ _ hs => hs) cfg c3 hc3)
          (fun c4 hc4 => andThen_pres (fun s => s.mount_points = l)
            (ammendPattern_pres (fun s => s.mount_points = l) (fun _ _ hs => hs) cfg c4 hc4)
            (fun c5 hc5 =>
              ammendDdns_pres (fun s => s.mount_points = l) (fun _ _ hs => hs) cfg c5 hc5))))

/-- Witness for C2 at concrete inputs: omission preserves the table, an
explicit empty list clears it, and a non-empty list replaces it. -/
theorem c2_witness :
    (ammend connOk cfgNone).conn.store.mount_points = connOk.store.mount_points ∧
    (ammend connOk cfgEmptyMounts).conn.store.mount_points = [] ∧
    (ammend connOk cfgAll).conn.store.mount_points =
      [{ source := "/usr/some/path", name := "root" }] :=
  ⟨(c2_ammend_mount_semantics connOk cfgNone).1 rfl,
   (c2_ammend_mount_semantics connOk cfgEmptyMounts).2 [] rfl rfl rfl,
   (c2_ammend_mount_semantics connOk cfgAll).2 _ rfl rfl rfl⟩

/-- C3: provided the two reset deletes succeed, `overwrite` first clears both
the mount-point table and the user table and then behaves exactly as `ammend`
on the cleared state; consequently a document omitting `mount_dirs` (or
`users`) leaves the corresponding table empty after the call. -/
theorem c3_overwrite_clears_then_ammends (c : Conn) (cfg : Config)
    (h1 : c.failures Op.deleteMountPoints = false)
    (h2 : c.failures Op.deleteUsers = false) :
    ((overwrite c cfg).conn =
        (ammend { c with store := { c.store with mount_points := [], users := [] } } cfg).conn ∧
      (overwrite c cfg).err =
        (ammend { c with store := { c.store with mount_points := [], users := [] } } cfg).err) ∧
    (cfg.mount_dirs = none → (overwrite c cfg).conn.store.mount_points = []) ∧
    (cfg.users = none → (overwrite c cfg).conn.store.users = []) := by
  have hreset : reset c =
      { conn := { c with store := { c.store with mount_points := [], users := [] } },
        err := none,
        events := Event.lockAcquire :: (Event.opExec Op.deleteMountPoints ::
          (Event.opExec Op.deleteUsers :: [Event.lockRelease])) } := by
    simp [reset, withLock, resetBody, Conn.exec, h1, h2, MRes.andThen]
  have hover : (overwrite c cfg).conn =
      (ammend { c with store := { c.store with mount_points := [], users := [] } } cfg).conn ∧
      (overwrite c cfg).err =
        (ammend { c with store := { c.store with mount_points := [], users := [] } } cfg).err := by
    unfold overwrite
    rw [hreset]
    simp [MRes.andThen]
  refine ⟨hover, ?_, ?_⟩
  · intro hm
    rw [hover.1]
    exact ammend_mounts_none cfg hm _ _ rfl
  · intro hu
    rw [hover.1]
    exact ammend_users_none cfg hu _ _ rfl

/-- Witness for C3 at a concrete input: overwriting with a document that
specifies nothing empties both tables. -/
theorem c3_witness :
    (overwrite connOk cfgNone).conn.store.mount_points = [] ∧
    (overwrite connOk cfgNone).conn.store.users = [] :=
  ⟨(c3_overwrite_clears_then_ammends connOk cfgNone rfl rfl).2.1 rfl,
   (c3_overwrite_clears_then_ammends connOk cfgNone rfl rfl).2.2 rfl⟩

/-- C9: the normalized path always converts back to a valid string, so the
bad-mount-directory-path branch is unreachable: `clean_paths` returns `Ok`
for every document, with every mount source normalized in place. -/
theorem c9_clean_paths_never_fails (cfg : Config) :
    cfg.clean_paths =
      Except.ok { cfg with mount_dirs := cfg.mount_dirs.map (List.map (fun m => { m with source := clean_path_string m.source })) } := by
  unfold Config.clean_paths
  cases hm : cfg.mount_dirs with
  | none => simp; rw [← hm]
  | some dirs => simp [cleanMountDirs_run, Except.map]

/-- C5: once the structural deserializer succeeds on the input text, the
whole parse call (JSON or TOML) returns exactly the result of cleaning the
parsed document; in particular, were the cleaning of some mount source to
fail, its `InvalidPath` error would be the result of the whole call and no
document, partial or otherwise, would be returned. -/
theorem c5_rejection_propagates (structural : String → Except Err Config)
    (content : String) (cfg : Config) :
    (structural content = Except.ok cfg →
      parse_json structural content = cfg.clean_paths) ∧
    (structural content = Except.ok cfg →
      parse_toml_file structural content = cfg.clean_paths) := by
  constructor
  · intro h
    unfold parse_json
    rw [h]
    cases hcp : cfg.clean_paths <;> simp [hcp, Bind.bind, Except.bind]
  · intro h
    unfold parse_toml_file
    rw [h]
    cases hcp : cfg.clean_paths <;> simp [hcp, Bind.bind, Except.bind]

/-- Witness for C5 at a concrete structural deserializer and input. -/
theorem c5_witness :
    parse_json structuralOk ("") = cfgAll.clean_paths ∧
    parse_toml_file structuralOk ("") = cfgAll.clean_paths :=
  ⟨(c5_rejection_propagates structuralOk ("") cfgAll).1 rfl,
   (c5_rejection_propagates structuralOk ("") cfgAll).2 rfl⟩

@[simp] theorem except_bind_ok {α β : Type} (x : α) (f : α → Except Err β) :
    Bind.bind (Except.ok x : Except Err α) f = f x := rfl

@[simp] theorem except_bind_error {α β : Type} (e : Err) (f : α → Except Err β) :
    Bind.bind (Except.error e : Except Err α) f = Except.error e := rfl

theorem read_run (c : Conn)
    (h1 : c.failures Op.selectMiscSettings = false)
    (h2 : c.failures Op.selectMountPoints = false)
    (h3 : c.failures Op.selectUserNames = false)
    (h4 : c.failures Op.selectDdns = false) :
    read c = Except.ok
      { album_art_pattern := some c.store.misc.index_album_art_pattern
        reindex_every_n_seconds := some c.store.misc.index_sleep_duration_seconds
        mount_dirs := some c.store.mount_points
        users := some (c.store.users.map (fun u => { name := u.name, password := "" }))
        ydns := some c.store.ddns } := by
  simp [read, Conn.query, h1, h2, h3, h4, Function.comp]

theorem read_fail1 (c : Conn) (h1 : c.failures Op.selectMiscSettings = true) :
    read c = Except.error (Err.storeError Op.selectMiscSettings) := by
  simp [read, Conn.query, h1]

theorem read_fail2 (c : Conn)
    (h1 : c.failures Op.selectMiscSettings = false)
    (h2 : c.failures Op.selectMountPoints = true) :
    read c = Except.error (Err.storeError Op.selectMountPoints) := by
  simp [read, Conn.query, h1, h2]

theorem read_fail3 (c : Conn)
    (h1 : c.failures Op.selectMiscSettings = false)
    (h2 : c.failures Op.selectMountPoints = false)
    (h3 : c.failures Op.selectUserNames = true) :
    read c = Except.error (Err.storeError Op.selectUserNames) := by
  simp [read, Conn.query, h1, h2, h3]

theorem read_fail4 (c : Conn)
    (h1 : c.failures Op.selectMiscSettings = false)
    (h2 : c.failures Op.selectMountPoints = false)
    (h3 : c.failures Op.selectUserNames = false)
    (h4 : c.failures Op.selectDdns = true) :
    read c = Except.error (Err.storeError Op.selectDdns) := by
  simp [read, Conn.query, h1, h2, h3, h4]

/-- C6: `read` never yields a partial document: on success every top-level
field is populated and every returned user carries an empty password (only
names are read from the user table); and the failure of any single underlying
query makes the whole call return the store error of that query. -/
theorem c6_read_complete_or_fails (c : Conn) :
    (∀ cfg, read c = Except.ok cfg →
      cfg.album_art_pattern.isSome = true ∧ cfg.reindex_every_n_seconds.isSome = true ∧
      cfg.mount_dirs.isSome = true ∧ cfg.users.isSome = true ∧ cfg.ydns.isSome = true ∧
      ∀ us, cfg.users = some us → ∀ u ∈ us, u.password = "") ∧
    (c.failures Op.selectMiscSettings = true →
      read c = Except.error (Err.storeError Op.selectMiscSettings)) ∧
    (c.failures Op.selectMiscSettings = false → c.failures Op.selectMountPoints = true →
      read c = Except.error (Err.storeError Op.selectMountPoints)) ∧
    (c.failures Op.selectMiscSettings = false → c.failures Op.selectMountPoints = false →
      c.failures Op.selectUserNames = true →
      read c = Except.error (Err.storeError Op.selectUserNames)) ∧
    (c.failures Op.selectMiscSettings = false → c.failures Op.selectMountPoints = false →
      c.failures Op.selectUserNames = false → c.failures Op.selectDdns = true →
      read c = Except.error (Err.storeError Op.selectDdns)) := by
  refine ⟨?_, read_fail1 c, read_fail2 c, read_fail3 c, read_fail4 c⟩
  intro cfg hok
  rcases h1 : c.failures Op.selectMiscSettings with _ | _
  case true => rw [read_fail1 c h1] at hok; cases hok
  rcases h2 : c.failures Op.selectMountPoints with _ | _
  case true => rw [read_fail2 c h1 h2] at hok; cases hok
  rcases h3 : c.failures Op.selectUserNames with _ | _
  case true => rw [read_fail3 c h1 h2 h3] at hok; cases hok
  rcases h4 : c.failures Op.selectDdns with _ | _
  case true => rw [read_fail4 c h1 h2 h3 h4] at hok; cases hok
  rw [read_run c h1 h2 h3 h4] at hok
  cases hok
  refine ⟨rfl, rfl, rfl, rfl, rfl, ?_⟩
  intro us hus
  cases hus
  intro u hu
  rcases List.mem_map.mp hu with ⟨w, _, rfl⟩
  rfl

/-- Witness for C6: completeness of a successful concrete read, and the four
single-query failures each aborting a concrete read with their own error. -/
theorem c6_witness :
    (cfgRead.album_art_pattern.isSome = true ∧ cfgRead.reindex_every_n_seconds.isSome = true ∧
      cfgRead.mount_dirs.isSome = true ∧ cfgRead.users.isSome = true ∧
      cfgRead.ydns.isSome = true ∧
      ∀ us, cfgRead.users = some us → ∀ u ∈ us, u.password = "") ∧
    read (connFail Op.selectMiscSettings) = Except.error (Err.storeError Op.selectMiscSettings) ∧
    read (connFail Op.selectMountPoints) = Except.error (Err.storeError Op.selectMountPoints) ∧
    read (connFail Op.selectUserNames) = Except.error (Err.storeError Op.selectUserNames) ∧
    read (connFail Op.selectDdns) = Except.error (Err.storeError Op.selectDdns) :=
  ⟨(c6_read_complete_or_fails connOk).1 cfgRead rfl,
   (c6_read_complete_or_fails (connFail Op.selectMiscSettings)).2.1 rfl,
   (c6_read_complete_or_fails (connFail Op.selectMountPoints)).2.2.1 rfl rfl,
   (c6_read_complete_or_fails (connFail Op.selectUserNames)).2.2.2.1 rfl rfl rfl,
   (c6_read_complete_or_fails (connFail Op.selectDdns)).2.2.2.2 rfl rfl rfl rfl⟩

theorem insertUsers_run (us : List ConfigUser) : ∀ (c : Conn),
    c.failures Op.insertUser = false →
    insertUsers c us =
      { conn := { c with store := { c.store with
          users := c.store.users ++ us.map (fun u => User.new c.hash u.name u.password) } },
        err := none,
        events := us.map (fun _ => Event.opExec Op.insertUser) } := by
  induction us with
  | nil => intro c h; simp [insertUsers, skip]
  | cons u rest ih =>
    intro c h
    simp [insertUsers, Conn.exec, h, MRes.andThen, ih, List.append_assoc]

/-- C7: the mutations of `ammend` run in the fixed order mount points, users,
global settings, DDNS; a failing statement at step N aborts the call with
that store error, nothing is rolled back, and the mutations of the steps
before N remain committed: a failing mount delete leaves the state untouched;
a failing user delete keeps the new mount points and everything else
untouched; a failing sleep-duration update keeps the new mount points and
users, misc and DDNS untouched; a failing DDNS update keeps the new mount
points, users and both global-settings columns, DDNS untouched. -/
theorem c7_failure_keeps_earlier_steps (c : Conn) (cfg : Config) :
    (∀ l, cfg.mount_dirs = some l → c.failures Op.deleteMountPoints = true →
      (ammend c cfg).conn = c ∧
      (ammend c cfg).err = some (Err.storeError Op.deleteMountPoints)) ∧
    (∀ l us, cfg.mount_dirs = some l → cfg.users = some us →
      c.failures Op.deleteMountPoints = false → c.failures Op.insertMountPoints = false →
      c.failures Op.deleteUsers = true →
      (ammend c cfg).err = some (Err.storeError Op.deleteUsers) ∧
      (ammend c cfg).conn.store.mount_points = l ∧
      (ammend c cfg).conn.store.users = c.store.users ∧
      (ammend c cfg).conn.store.misc = c.store.misc ∧
      (ammend c cfg).conn.store.ddns = c.store.ddns) ∧
    (∀ l us n, cfg.mount_dirs = some l → cfg.users = some us →
      cfg.reindex_every_n_seconds = some n →
      c.failures Op.deleteMountPoints = false → c.failures Op.insertMountPoints = false →
      c.failures Op.deleteUsers = false → c.failures Op.insertUser = false →
      c.failures Op.updateSleepDuration = true →
      (ammend c cfg).err = some (Err.storeError Op.updateSleepDuration) ∧
      (ammend c cfg).conn.store.mount_points = l ∧
      (ammend c cfg).conn.store.users = us.map (fun u => User.new c.hash u.name u.password) ∧
      (ammend c cfg).conn.store.misc = c.store.misc ∧
      (ammend c cfg).conn.store.ddns = c.store.ddns) ∧
    (∀ l us n a y, cfg.mount_dirs = some l → cfg.users = some us →
      cfg.reindex_every_n_seconds = some n → cfg.album_art_pattern = some a →
      cfg.ydns = some y →
      c.failures Op.deleteMountPoints = false → c.failures Op.insertMountPoints = false →
      c.failures Op.deleteUsers = false → c.failures Op.insertUser = false →
      c.failures Op.updateSleepDuration = false → c.failures Op.updateArtPattern = false →
      c.failures Op.updateDdns = true →
      (ammend c cfg).err = some (Err.storeError Op.updateDdns) ∧
      (ammend c cfg).conn.store.mount_points = l ∧
      (ammend c cfg).conn.store.users = us.map (fun u => User.new c.hash u.name u.password) ∧
      (ammend c cfg).conn.store.misc =
        { c.store.misc with index_sleep_duration_seconds := n,
                            index_album_art_pattern := a } ∧
      (ammend c cfg).conn.store.ddns = c.store.ddns) := by
  refine ⟨?_, ?_, ?_, ?_⟩
  · intro l hm h1
    simp [ammend, withLock, ammendBody, ammendMounts, hm, Conn.exec, h1, MRes.andThen]
  · intro l us hm hu h1 h2 h3
    simp [ammend, withLock, ammendBody, ammendMounts, ammendUsers, hm, hu,
      Conn.exec, h1, h2, h3, MRes.andThen]
  · intro l us n hm hu hn h1 h2 h3 h4 h5
    simp [ammend, withLock, ammendBody, ammendMounts, ammendUsers, ammendSleep, hm, hu, hn,
      Conn.exec, h1, h2, h3, h4, h5, MRes.andThen, insertUsers_run]
  · intro l us n a y hm hu hn ha hy h1 h2 h3 h4 h5 h6 h7
    simp [ammend, withLock, ammendBody, ammendMounts, ammendUsers, ammendSleep,
      ammendPattern, ammendDdns, hm, hu, hn, ha, hy,
      Conn.exec, h1, h2, h3, h4, h5, h6, h7, MRes.andThen, insertUsers_run]

/-- Witness for C7 at concrete inputs: one ammend call per failing step. -/
theorem c7_witness :
    ((ammend (connFail Op.deleteMountPoints) cfgAll).conn = connFail Op.deleteMountPoints ∧
      (ammend (connFail Op.deleteMountPoints) cfgAll).err =
        some (Err.storeError Op.deleteMountPoints)) ∧
    (ammend (connFail Op.deleteUsers) cfgAll).conn.store.mount_points =
      [{ source := "/usr/some/path", name := "root" }] ∧
    (ammend (connFail Op.updateSleepDuration) cfgAll).conn.store.misc = store0.misc ∧
    (ammend (connFail Op.updateDdns) cfgAll).conn.store.ddns = store0.ddns :=
  ⟨(c7_failure_keeps_earlier_steps (connFail Op.deleteMountPoints) cfgAll).1 _ rfl rfl,
   ((c7_failure_keeps_earlier_steps (connFail Op.deleteUsers) cfgAll).2.1
      _ _ rfl rfl rfl rfl rfl).2.1,
   ((c7_failure_keeps_earlier_steps (connFail Op.updateSleepDuration) cfgAll).2.2.1
      _ _ _ rfl rfl rfl rfl rfl rfl rfl rfl).2.2.2.1,
   ((c7_failure_keeps_earlier_steps (connFail Op.updateDdns) cfgAll).2.2.2
      _ _ _ _ _ rfl rfl rfl rfl rfl rfl rfl rfl rfl rfl rfl rfl).2.2.2.2⟩

/-- C1: on a connection without store failures, resetting, amending with a
document whose five fields are all present (and whose mount sources are
already in native form), and then reading returns the document with every
user password cleared to the empty string. -/
theorem c1_round_trip (c : Conn) (a : String) (n : Int) (dirs : List MountPoint)
    (us : List ConfigUser) (y : DDNSConfig)
    (hf : c.failures = fun _ => false)
    (_hnative : ∀ m ∈ dirs, clean_path_string m.source = m.source) :
    read (ammend (reset c).conn
        { album_art_pattern := some a, reindex_every_n_seconds := some n,
          mount_dirs := some dirs, users := some us, ydns := some y }).conn =
      Except.ok
        { album_art_pattern := some a, reindex_every_n_seconds := some n,
          mount_dirs := some dirs,
          users := some (us.map (fun u => { name := u.name, password := "" })),
          ydns := some y } := by
  have hreset : (reset c).conn =
      { c with store := { c.store with mount_points := [], users := [] } } := by
    simp [reset, withLock, resetBody, Conn.exec, hf, MRes.andThen]
  have hamd : (ammend (reset c).conn
      { album_art_pattern := some a, reindex_every_n_seconds := some n,
        mount_dirs := some dirs, users := some us, ydns := some y }).conn =
      { store :=
          { misc := { c.store.misc with index_sleep_duration_seconds := n,
                                        index_album_art_pattern := a }
            mount_points := dirs
            users := us.map (fun u => User.new c.hash u.name u.password)
            ddns := y }
        failures := c.failures, hash := c.hash } := by
    rw [hreset]
    simp [ammend, withLock, ammendBody, ammendMounts, ammendUsers, ammendSleep,
      ammendPattern, ammendDdns, Conn.exec, hf, MRes.andThen, insertUsers_run]
  rw [hamd, read_run]
  · simp [User.new, Function.comp]
  all_goals simp [hf]

/-- Witness for C1 at a concrete connection and document. -/
theorem c1_witness :
    read (ammend (reset connOk).conn cfgAll).conn =
      Except.ok
        { album_art_pattern := some ("file.png"), reindex_every_n_seconds := some 123,
          mount_dirs := some [{ source := "/usr/some/path", name := "root" }],
          users := some [{ name := "Teddy", password := "" }],
          ydns := some { host := "x.ydns.eu", username := "u", password := "p" } } :=
  c1_round_trip connOk ("file.png") 123 [{ source := "/usr/some/path", name := "root" }]
    [{ name := "Teddy", password := "pw" }] { host := "x.ydns.eu", username := "u", password := "p" }
    rfl (by decide)

theorem opOnly_exec (c : Conn) (op : Op) (f : Store → Store) :
    ∀ e ∈ (c.exec op f).events, ∃ o, e = Event.opExec o := by
  intro e he
  unfold Conn.exec at he
  split at he <;> simp at he <;> exact ⟨op, he⟩

theorem opOnly_andThen (r : MRes) (g : Conn → MRes)
    (hr : ∀ e ∈ r.events, ∃ o, e = Event.opExec o)
    (hg : ∀ c, ∀ e ∈ (g c).events, ∃ o, e = Event.opExec o) :
    ∀ e ∈ (r.andThen g).events, ∃ o, e = Event.opExec o := by
  intro e he
  unfold MRes.andThen at he
  rcases hr2 : r.err with _ | er
  · rw [hr2] at he
    simp at he
    rcases he with he | he
    · exact hr e he
    · exact hg _ e he
  · rw [hr2] at he
    exact hr e he

theorem opOnly_insertUsers (us : List ConfigUser) : ∀ (c : Conn),
    ∀ e ∈ (insertUsers c us).events, ∃ o, e = Event.opExec o := by
  induction us with
  | nil => intro c e he; simp [insertUsers, skip] at he
  | cons u rest ih =>
    intro c
    exact opOnly_andThen _ _ (opOnly_exec c _ _) (fun c2 => ih c2)

theorem opOnly_ammendMounts (c : Conn) (cfg : Config) :
    ∀ e ∈ (ammendMounts c cfg).events, ∃ o, e = Event.opExec o := by
  unfold ammendMounts
  cases cfg.mount_dirs with
  | none => intro e he; simp [skip] at he
  | some l => exact opOnly_andThen _ _ (opOnly_exec c _ _) (fun c2 => opOnly_exec c2 _ _)

theorem opOnly_ammendUsers (c : Conn) (cfg : Config) :
    ∀ e ∈ (ammendUsers c cfg).events, ∃ o, e = Event.opExec o := by
  unfold ammendUsers
  cases cfg.users with
  | none => intro e he; simp [skip] at he
  | some us => exact opOnly_andThen _ _ (opOnly_exec c _ _) (fun c2 => opOnly_insertUsers us c2)

theorem opOnly_ammendSleep (c : Conn) (cfg : Config) :
    ∀ e ∈ (ammendSleep c cfg).events, ∃ o, e = Event.opExec o := by
  unfold ammendSleep
  cases cfg.reindex_every_n_seconds with
  | none => intro e he; simp [skip] at he
  | some n => exact opOnly_exec c _ _

theorem opOnly_ammendPattern (c : Conn) (cfg : Config) :
    ∀ e ∈ (ammendPattern c cfg).events, ∃ o, e = Event.opExec o := by
  unfold ammendPattern
  cases cfg.album_art_pattern with
  | none => intro e he; simp [skip] at he
  | some a => exact opOnly_exec c _ _

theorem opOnly_ammendDdns (c : Conn) (cfg : Config) :
    ∀ e ∈ (ammendDdns c cfg).events, ∃ o, e = Event.opExec o := by
  unfold ammendDdns
  cases cfg.ydns with
  | none => intro e he; simp [skip] at he
  | some y => exact opOnly_exec c _ _

theorem opOnly_ammendBody (cfg : Config) (c : Conn) :
    ∀ e ∈ (ammendBody cfg c).events, ∃ o, e = Event.opExec o := by
  unfold ammendBody
  exact opOnly_andThen _ _ (opOnly_ammendMounts c cfg) (fun c2 =>
    opOnly_andThen _ _ (opOnly_ammendUsers c2 cfg) (fun c3 =>
      opOnly_andThen _ _ (opOnly_ammendSleep c3 cfg) (fun c4 =>
        opOnly_andThen _ _ (opOnly_ammendPattern c4 cfg) (fun c5 =>
          opOnly_ammendDdns c5 cfg))))

/-- Amended C8: `ammend` acquires the connection lock once for the entire
call, not once per step: its trace is a single acquisition, then only
statement executions, then a single release, and the release happens on every
exit path (the guard is dropped on error returns too), so concurrent ammend
calls serialize at whole-call granularity. -/
theorem c8_single_lock_for_whole_ammend (c : Conn) (cfg : Config) :
    ∃ body, (ammend c cfg).events = Event.lockAcquire :: (body ++ [Event.lockRelease]) ∧
      (∀ e ∈ body, ∃ o, e = Event.opExec o) ∧
      (ammend c cfg).events.count Event.lockAcquire = 1 ∧
      (ammend c cfg).events.count Event.lockRelease = 1 := by
  refine ⟨(ammendBody cfg c).events, rfl, opOnly_ammendBody cfg c, ?_, ?_⟩
  · show (Event.lockAcquire :: ((ammendBody cfg c).events ++ [Event.lockRelease])).count
      Event.lockAcquire = 1
    have hz : (ammendBody cfg c).events.count Event.lockAcquire = 0 := by
      refine List.count_eq_zero.mpr ?_
      intro hmem
      rcases opOnly_ammendBody cfg c _ hmem with ⟨o, ho⟩
      cases ho
    simp [List.count_cons, List.count_append, hz]
  · show (Event.lockAcquire :: ((ammendBody cfg c).events ++ [Event.lockRelease])).count
      Event.lockRelease = 1
    have hz : (ammendBody cfg c).events.count Event.lockRelease = 0 := by
      refine List.count_eq_zero.mpr ?_
      intro hmem
      rcases opOnly_ammendBody cfg c _ hmem with ⟨o, ho⟩
      cases ho
    simp [List.count_cons, List.count_append, hz]

/-- Counterexample to C8 as stated: a concrete ammend call that runs all four
mutation steps (seven statements) produces exactly one lock acquisition, not
one per step: the whole trace is one acquire, the seven statements, one
release. -/
theorem c8_counterexample :
    (ammend connOk cfgAll).events.count Event.lockAcquire = 1 ∧
    (ammend connOk cfgAll).events =
      [Event.lockAcquire, Event.opExec Op.deleteMountPoints, Event.opExec Op.insertMountPoints,
       Event.opExec Op.deleteUsers, Event.opExec Op.insertUser,
       Event.opExec Op.updateSleepDuration, Event.opExec Op.updateArtPattern,
       Event.opExec Op.updateDdns, Event.lockRelease] := by
  constructor <;> rfl

theorem splitSep_ne_nil (cs : List Char) : splitSep cs ≠ [] := by
  cases cs with
  | nil => simp [splitSep]
  | cons c rest =>
    simp only [splitSep]
    split <;> simp

theorem splitSep_cons_sep (rest : List Char) :
    splitSep ('/' :: rest) = [] :: splitSep rest := by
  simp [splitSep]

theorem splitSep_cons_ne {c : Char} (rest : List Char) (h : ¬c = '/') :
    splitSep (c :: rest) =
      (c :: (splitSep rest).headI) :: (splitSep rest).tail := by
  simp [splitSep, h]

theorem splitSep_strong (cs : List Char) :
    ∀ s ∈ splitSep cs, '/' ∉ s ∧ ∀ ch ∈ s, ch ∈ cs := by
  induction cs with
  | nil =>
    intro s hs
    simp [splitSep] at hs
    subst hs
    simp
  | cons c rest ih =>
    intro s hs
    by_cases hc : c = '/'
    · subst hc
      rw [splitSep_cons_sep] at hs
      rcases List.mem_cons.mp hs with hs | hs
      · subst hs; simp
      · rcases ih s hs with ⟨h1, h2⟩
        exact ⟨h1, fun ch hch => List.mem_cons_of_mem _ (h2 ch hch)⟩
    · rw [splitSep_cons_ne rest hc] at hs
      rcases hrest : splitSep rest with _ | ⟨a, t⟩
      · exact absurd hrest (splitSep_ne_nil rest)
      rw [hrest] at hs
      have ha : '/' ∉ a ∧ ∀ ch ∈ a, ch ∈ rest := ih a (by rw [hrest]; exact List.mem_cons_self a t)
      rcases List.mem_cons.mp hs with hs | hs
      · subst hs
        constructor
        · intro hmem
          rcases List.mem_cons.mp hmem with h1 | h1
          · exact hc h1.symm
          · simp only [List.headI] at h1
            exact ha.1 h1
        · intro ch hch
          rcases List.mem_cons.mp hch with h1 | h1
          · rw [h1]; exact List.mem_cons_self c rest
          · simp only [List.headI] at h1
            exact List.mem_cons_of_mem _ (ha.2 ch h1)
      · simp only [List.tail] at hs
        have hst : '/' ∉ s ∧ ∀ ch ∈ s, ch ∈ rest :=
          ih s (by rw [hrest]; exact List.mem_cons_of_mem a hs)
        exact ⟨hst.1, fun ch hch => List.mem_cons_of_mem _ (hst.2 ch hch)⟩

theorem splitSep_single (s : List Char) (h : '/' ∉ s) : splitSep s = [s] := by
  induction s with
  | nil => simp [splitSep]
  | cons c rest ih =>
    have hc : ¬c = '/' := by
      intro hc; exact h (by rw [hc]; exact List.mem_cons_self _ _)
    have hr : '/' ∉ rest := fun hm => h (List.mem_cons_of_mem _ hm)
    rw [splitSep_cons_ne rest hc, ih hr]
    simp [List.headI]

theorem splitSep_append_sep (s : List Char) (w : List Char) (h : '/' ∉ s) :
    splitSep (s ++ '/' :: w) = s :: splitSep w := by
  induction s with
  | nil => simp [splitSep_cons_sep]
  | cons c rest ih =>
    have hc : ¬c = '/' := by
      intro hc; exact h (by rw [hc]; exact List.mem_cons_self _ _)
    have hr : '/' ∉ rest := fun hm => h (List.mem_cons_of_mem _ hm)
    have : (c :: rest) ++ '/' :: w = c :: (rest ++ '/' :: w) := by simp
    rw [this, splitSep_cons_ne _ hc, ih hr]
    simp [List.headI]

theorem splitSep_joinSep (segs : List (List Char)) (hne : segs ≠ [])
    (h : ∀ s ∈ segs, '/' ∉ s) : splitSep (joinSep segs) = segs := by
  induction segs with
  | nil => exact absurd rfl hne
  | cons s rest ih =>
    cases rest with
    | nil => exact splitSep_single s (h s (List.mem_cons_self _ _))
    | cons t rest2 =>
      show splitSep (s ++ '/' :: joinSep (t :: rest2)) = s :: t :: rest2
      rw [splitSep_append_sep s _ (h s (List.mem_cons_self _ _))]
      rw [ih (by simp) (fun s2 hs2 => h s2 (List.mem_cons_of_mem _ hs2))]

theorem mem_joinSep (segs : List (List Char)) (ch : Char) (h : ch ∈ joinSep segs) :
    ch = '/' ∨ ∃ s ∈ segs, ch ∈ s := by
  induction segs with
  | nil => simp [joinSep] at h
  | cons s rest ih =>
    cases rest with
    | nil =>
      right
      exact ⟨s, List.mem_cons_self _ _, h⟩
    | cons t rest2 =>
      have h2 : ch ∈ s ++ '/' :: joinSep (t :: rest2) := h
      rcases List.mem_append.mp h2 with h3 | h3
      · exact Or.inr ⟨s, List.mem_cons_self _ _, h3⟩
      · rcases List.mem_cons.mp h3 with h4 | h4
        · exact Or.inl h4
        · rcases ih h4 with h5 | ⟨s2, hs2, hch⟩
          · exact Or.inl h5
          · exact Or.inr ⟨s2, List.mem_cons_of_mem _ hs2, hch⟩

theorem sepReplace_ne_bslash (c : Char) : sepReplace c ≠ '\\' := by
  unfold sepReplace
  split
  · decide
  · rename_i h
    simp at h
    exact h.1

theorem sepReplace_eq_self {c : Char} (h : c ≠ '\\') : sepReplace c = c := by
  unfold sepReplace
  split
  · rename_i h2
    simp at h2
    rcases h2 with h2 | h2
    · exact absurd h2 h
    · exact h2.symm
  · rfl

theorem map_sepReplace_id (cs : List Char) (h : ∀ ch ∈ cs, ch ≠ '\\') :
    cs.map sepReplace = cs := by
  induction cs with
  | nil => rfl
  | cons c rest ih =>
    simp only [List.map]
    rw [sepReplace_eq_self (h c (List.mem_cons_self _ _)),
      ih (fun ch hch => h ch (List.mem_cons_of_mem _ hch))]

theorem core_facts (cs : List Char) :
    ∀ s ∈ (pathSegs (cs.map sepReplace)).filter (fun s => s ≠ ['.']),
      s ≠ [] ∧ '/' ∉ s ∧ s ≠ ['.'] ∧ ∀ ch ∈ s, ch ≠ '\\' := by
  intro s hs
  have h1 := List.mem_filter.mp hs
  have h2 := List.mem_filter.mp h1.1
  have hsplit := splitSep_strong (cs.map sepReplace) s h2.1
  refine ⟨by simpa using h2.2, hsplit.1, by simpa using h1.2, ?_⟩
  intro ch hch
  rcases List.mem_map.mp (hsplit.2 ch hch) with ⟨c0, _, hc0⟩
  rw [← hc0]
  exact sepReplace_ne_bslash c0

theorem joinSep_cons_head (s : List Char) (rest : List (List Char)) (hne : s ≠ []) :
    (joinSep (s :: rest)).head? = s.head? := by
  cases rest with
  | nil => rfl
  | cons t r2 =>
    show (s ++ '/' :: joinSep (t :: r2)).head? = s.head?
    cases s with
    | nil => exact absurd rfl hne
    | cons c cr => rfl

theorem clean_output_fixed (core : List (List Char))
    (hcf : ∀ s ∈ core, s ≠ [] ∧ '/' ∉ s ∧ s ≠ ['.'] ∧ ∀ ch ∈ s, ch ≠ '\\') :
    cleanChars ('/' :: joinSep core) = '/' :: joinSep core ∧
    cleanChars (joinSep (['.'] :: core)) = joinSep (['.'] :: core) ∧
    cleanChars (joinSep core) = joinSep core := by
  have hns : ∀ s ∈ core, '/' ∉ s := fun s hs => (hcf s hs).2.1
  have hchars : ∀ ch ∈ joinSep core, ch ≠ '\\' := by
    intro ch hch
    rcases mem_joinSep core ch hch with h | ⟨s, hs, hchs⟩
    · rw [h]; decide
    · exact (hcf s hs).2.2.2 ch hchs
  have hcoreNE : core.filter (fun s => s ≠ []) = core :=
    List.filter_eq_self.mpr (fun s hs => by simpa using (hcf s hs).1)
  have hcoreDot : core.filter (fun s => s ≠ ['.']) = core :=
    List.filter_eq_self.mpr (fun s hs => by simpa using (hcf s hs).2.2.1)
  refine ⟨?_, ?_, ?_⟩
  · have hmap : ('/' :: joinSep core).map sepReplace = '/' :: joinSep core := by
      refine map_sepReplace_id _ ?_
      intro ch hch
      rcases List.mem_cons.mp hch with h | h
      · rw [h]; decide
      · exact hchars ch h
    have hsegs : pathSegs ('/' :: joinSep core) = core := by
      unfold pathSegs
      rw [splitSep_cons_sep]
      cases hc : core with
      | nil => rfl
      | cons s rest =>
        rw [← hc, splitSep_joinSep core (by rw [hc]; simp) hns]
        rw [List.filter_cons_of_neg (by simp)]
        exact hcoreNE
    have hcond : ('/' :: joinSep core).head? = some '/' := rfl
    simp only [cleanChars, hmap]
    rw [if_pos hcond, hsegs, hcoreDot]
  · have helems : ∀ s ∈ ['.'] :: core, '/' ∉ s := by
      intro s hs
      rcases List.mem_cons.mp hs with h | h
      · rw [h]; decide
      · exact hns s h
    have hmap : (joinSep (['.'] :: core)).map sepReplace = joinSep (['.'] :: core) := by
      refine map_sepReplace_id _ ?_
      intro ch hch
      rcases mem_joinSep _ ch hch with h | ⟨s, hs, hchs⟩
      · rw [h]; decide
      · rcases List.mem_cons.mp hs with h2 | h2
        · rw [h2] at hchs
          rcases List.mem_cons.mp hchs with h3 | h3
          · rw [h3]; decide
          · simp at h3
        · exact (hcf s h2).2.2.2 ch hchs
    have hsplit : splitSep (joinSep (['.'] :: core)) = ['.'] :: core :=
      splitSep_joinSep _ (by simp) helems
    have hsegs : pathSegs (joinSep (['.'] :: core)) = ['.'] :: core := by
      unfold pathSegs
      rw [hsplit, List.filter_cons_of_pos (by simp)]
      rw [hcoreNE]
    have hhead : (joinSep (['.'] :: core)).head? = some '.' :=
      joinSep_cons_head _ _ (by simp)
    have hcond : (['.'] :: core).head? = some ['.'] := rfl
    simp only [cleanChars, hmap]
    rw [if_neg (by rw [hhead]; simp), hsegs, if_pos hcond]
    rw [List.filter_cons_of_neg (by simp), hcoreDot]
  · cases hc : core with
    | nil => rfl
    | cons s rest =>
      rw [← hc]
      have hmap : (joinSep core).map sepReplace = joinSep core :=
        map_sepReplace_id _ hchars
      have hsplit : splitSep (joinSep core) = core :=
        splitSep_joinSep core (by rw [hc]; simp) hns
      have hsegs : pathSegs (joinSep core) = core := by
        unfold pathSegs
        rw [hsplit]
        exact hcoreNE
      have hsne : s ≠ [] := (hcf s (by rw [hc]; exact List.mem_cons_self _ _)).1
      have hhead : (joinSep core).head? = s.head? := by
        rw [hc]
        exact joinSep_cons_head _ _ hsne
      have hheadne : (joinSep core).head? ≠ some '/' := by
        rw [hhead]
        cases hs0 : s with
        | nil => exact absurd hs0 hsne
        | cons c0 cr =>
          have hc0 : c0 ∈ s := by rw [hs0]; exact List.mem_cons_self _ _
          have : ¬c0 = '/' := by
            intro he
            exact hns s (by rw [hc]; exact List.mem_cons_self _ _) (he ▸ hc0)
          simpa using this
      have hsegshead : (pathSegs (joinSep core)).head? ≠ some ['.'] := by
        rw [hsegs, hc]
        have : s ≠ ['.'] := (hcf s (by rw [hc]; exact List.mem_cons_self _ _)).2.2.1
        simpa using this
      simp only [cleanChars, hmap]
      rw [if_neg hheadne, if_neg hsegshead, hsegs, hcoreDot]

theorem cleanChars_cases (cs : List Char) :
    cleanChars cs = '/' :: joinSep ((pathSegs (cs.map sepReplace)).filter (fun s => s ≠ ['.'])) ∨
    cleanChars cs = joinSep (['.'] :: (pathSegs (cs.map sepReplace)).filter (fun s => s ≠ ['.'])) ∨
    cleanChars cs = joinSep ((pathSegs (cs.map sepReplace)).filter (fun s => s ≠ ['.'])) := by
  simp only [cleanChars]
  split
  · exact Or.inl rfl
  · split
    · exact Or.inr (Or.inl rfl)
    · exact Or.inr (Or.inr rfl)

theorem cleanChars_idem (cs : List Char) : cleanChars (cleanChars cs) = cleanChars cs := by
  rcases cleanChars_cases cs with h | h | h <;> rw [h]
  · exact (clean_output_fixed _ (core_facts cs)).1
  · exact (clean_output_fixed _ (core_facts cs)).2.1
  · exact (clean_output_fixed _ (core_facts cs)).2.2

/-- C4: path normalization is idempotent (a path already in the normal form
produced by `clean_path_string` is returned unchanged), and the
separator-variant spellings of the same path, with trailing and duplicated
separators, all normalize to the same native value (the Unix build of the
source is modelled, where the native separator is the forward slash). -/
theorem c4_clean_path_idempotent_and_collapses :
    (∀ s : String, clean_path_string (clean_path_string s) = clean_path_string s) ∧
    clean_path_string ("C:\\some\\path\\\\\\\\") = clean_path_string ("C:/some/path") ∧
    clean_path_string ("C:\\some/path//") = clean_path_string ("C:/some/path") ∧
    clean_path_string ("C:/some/path") = "C:/some/path" := by
  refine ⟨?_, by decide, by decide, by decide⟩
  intro s
  simp only [clean_path_string]
  rw [cleanChars_idem]

end Polaris
